import Mathlib

/-!
Verification of the content-addressed replicated storage manager in
`src/main.py` (classes `Node` and `DistributedFileStorageSystem`).

The Python source is embedded shallowly:

* `hashlib.sha256(data).hexdigest()` is embedded as `hash_file`, a full
  executable SHA-256 over byte lists (`List Nat`, each entry a byte),
  producing the lowercase hexadecimal digest as a `String`, with all
  32-bit arithmetic made explicit via `% 4294967296`.
* Python `dict`s (`Node.files`, `DistributedFileStorageSystem.file_map`)
  are embedded as association lists with dict semantics: `dget` reads the
  first matching key, `dinsert` overwrites in place or appends, `derase`
  removes the key.
* `random.sample(self.nodes, self.num_replicas)` is embedded by passing
  the sampled selection explicitly as a list `sel` of positions into the
  node list; `random.sample` raises `ValueError` when the sample size
  exceeds the population, embedded as the `StoreError.insufficientReplicas`
  outcome (the store fails before any mutation).
* The `threading.Lock` is dropped: the embedding is sequential, each
  operation runs atomically.
* Methods that mutate `self` become functions returning the new state;
  `retrieve_file` returns its result paired with the (unchanged) state so
  that its frame property is a statement, not a typing convention.
-/

/-! ## SHA-256 (embedding of `hashlib.sha256(...).hexdigest()`)

Round constants are derived, as in the SHA-256 standard, from the
fractional parts of the cube roots (respectively square roots) of the
first 64 (respectively 8) primes, via exact integer root extraction. -/

/-- Right rotation of a 32-bit word. -/
def rotr32 (n x : Nat) : Nat :=
  ((x >>> n) ||| (x <<< (32 - n))) % 4294967296

/-- SHA-256 big sigma 0. -/
def bsig0 (x : Nat) : Nat := rotr32 2 x ^^^ rotr32 13 x ^^^ rotr32 22 x

/-- SHA-256 big sigma 1. -/
def bsig1 (x : Nat) : Nat := rotr32 6 x ^^^ rotr32 11 x ^^^ rotr32 25 x

/-- SHA-256 small sigma 0. -/
def ssig0 (x : Nat) : Nat := rotr32 7 x ^^^ rotr32 18 x ^^^ (x >>> 3)

/-- SHA-256 small sigma 1. -/
def ssig1 (x : Nat) : Nat := rotr32 17 x ^^^ rotr32 19 x ^^^ (x >>> 10)

/-- SHA-256 choice function. -/
def chof (x y z : Nat) : Nat := (x &&& y) ^^^ ((x ^^^ 4294967295) &&& z)

/-- SHA-256 majority function. -/
def majf (x y z : Nat) : Nat := (x &&& y) ^^^ (x &&& z) ^^^ (y &&& z)

/-- Bisection step for the integer cube root: maintains lo^3 ≤ n < hi^3. -/
def icbrtAux (n : Nat) : Nat → Nat → Nat → Nat
  | 0, lo, _ => lo
  | fuel + 1, lo, hi =>
    if hi ≤ lo + 1 then lo
    else
      let mid := (lo + hi) / 2
      if mid * mid * mid ≤ n then icbrtAux n fuel mid hi
      else icbrtAux n fuel lo mid

/-- Integer cube root: the largest `k` with `k^3 ≤ n`. -/
def icbrt (n : Nat) : Nat := icbrtAux n 200 0 (n + 1)

/-- Bisection step for the integer square root: maintains lo^2 ≤ n < hi^2. -/
def isqrtAux (n : Nat) : Nat → Nat → Nat → Nat
  | 0, lo, _ => lo
  | fuel + 1, lo, hi =>
    if hi ≤ lo + 1 then lo
    else
      let mid := (lo + hi) / 2
      if mid * mid ≤ n then isqrtAux n fuel mid hi
      else isqrtAux n fuel lo mid

/-- Integer square root: the largest `k` with `k^2 ≤ n`. -/
def isqrt (n : Nat) : Nat := isqrtAux n 200 0 (n + 1)

/-- The first 64 primes, whose roots yield the SHA-256 constants. -/
def primes64 : List Nat :=
  [2, 3, 5, 7, 11, 13, 17, 19, 23, 29, 31, 37, 41, 43, 47, 53,
   59, 61, 67, 71, 73, 79, 83, 89, 97, 101, 103, 107, 109, 113, 127, 131,
   137, 139, 149, 151, 157, 163, 167, 173, 179, 181, 191, 193, 197, 199, 211, 223,
   227, 229, 233, 239, 241, 251, 257, 263, 269, 271, 277, 281, 283, 293, 307, 311]

/-- First 32 bits of the fractional part of the cube root of `p`. -/
def kconst (p : Nat) : Nat := icbrt (p * 2 ^ 96) % 4294967296

/-- First 32 bits of the fractional part of the square root of `p`. -/
def hconst (p : Nat) : Nat := isqrt (p * 2 ^ 64) % 4294967296

/-- The 64 SHA-256 round constants K. -/
def sha256K : List Nat := primes64.map kconst

/-- The 8 initial SHA-256 hash words H0. -/
def sha256H0 : List Nat := (primes64.take 8).map hconst

/-- Big-endian byte decomposition of `x` into `n` bytes. -/
def toBytesBE (n x : Nat) : List Nat :=
  (List.range n).map fun i => (x >>> (8 * (n - 1 - i))) % 256

/-- SHA-256 padding: append 0x80, zeros to 56 mod 64 bytes, then the
bit length as 8 big-endian bytes. Each message entry is a byte. -/
def padMessage (msg : List Nat) : List Nat :=
  let len := msg.length
  let zeros := (120 - (len + 1) % 64) % 64
  msg.map (· % 256) ++ [128] ++ List.replicate zeros 0 ++
    toBytesBE 8 ((8 * len) % 2 ^ 64)

/-- Group a byte list into big-endian 32-bit words, four bytes each. -/
def bytesToWords : List Nat → List Nat
  | b0 :: b1 :: b2 :: b3 :: rest =>
    (b0 * 16777216 + b1 * 65536 + b2 * 256 + b3) :: bytesToWords rest
  | _ => []

/-- Split into 64-byte chunks; the fuel is an upper bound on the chunk count. -/
def chunks64Go : Nat → List Nat → List (List Nat)
  | 0, _ => []
  | _ + 1, [] => []
  | fuel + 1, l => l.take 64 :: chunks64Go fuel (l.drop 64)

/-- Split a byte list into 64-byte chunks. -/
def chunks64 (l : List Nat) : List (List Nat) := chunks64Go l.length l

/-- Message-schedule extension; `acc` holds the schedule so far, reversed. -/
def scheduleGo : Nat → List Nat → List Nat
  | 0, acc => acc
  | fuel + 1, acc =>
    let w2 := acc.getD 1 0
    let w7 := acc.getD 6 0
    let w15 := acc.getD 14 0
    let w16 := acc.getD 15 0
    scheduleGo fuel (((ssig1 w2 + w7 + ssig0 w15 + w16) % 4294967296) :: acc)

/-- Expand a 16-word block into the 64-word message schedule. -/
def schedule (block : List Nat) : List Nat := (scheduleGo 48 block.reverse).reverse

/-- One SHA-256 compression round on the eight-word working state. -/
def sha256Round (st : List Nat) (k w : Nat) : List Nat :=
  match st with
  | [a, b, c, d, e, f, g, h] =>
    let t1 := (h + bsig1 e + chof e f g + k + w) % 4294967296
    let t2 := (bsig0 a + majf a b c) % 4294967296
    [(t1 + t2) % 4294967296, a, b, c, (d + t1) % 4294967296, e, f, g]
  | st => st

/-- Compress one 16-word block into the running hash state. -/
def compressBlock (hs block : List Nat) : List Nat :=
  let ws := schedule block
  let st := (sha256K.zip ws).foldl (fun st kw => sha256Round st kw.1 kw.2) hs
  (hs.zip st).map fun p => (p.1 + p.2) % 4294967296

/-- SHA-256 of a byte list, as eight 32-bit words. -/
def sha256Words (msg : List Nat) : List Nat :=
  (chunks64 (padMessage msg)).foldl (fun hs b => compressBlock hs (bytesToWords b)) sha256H0

/-- Lowercase hexadecimal digit. -/
def hexDigit (n : Nat) : Char :=
  if n < 10 then Char.ofNat (48 + n) else Char.ofNat (87 + n)

/-- Eight-character lowercase hexadecimal rendering of a 32-bit word. -/
def wordToHex (w : Nat) : List Char :=
  (List.range 8).map fun i => hexDigit ((w >>> (4 * (7 - i))) % 16)

/-- Embedding of `DistributedFileStorageSystem.hash_file`: the lowercase
hexadecimal SHA-256 digest of the payload bytes (`self` is unused by the
method). -/
def hash_file (data : List Nat) : String :=
  String.mk ((sha256Words data).map wordToHex).flatten

/-! ## Python dict operations on association lists

`Node.files` and `DistributedFileStorageSystem.file_map` are Python dicts.
The embedding keeps them as association lists: lookup reads the first
matching key, assignment overwrites the first matching entry in place
(or appends a new one), and `del` removes the key. -/

/-- Dict lookup `m.get(k, None)` / `m[k]`: the first value stored under `k`. -/
def dget {α : Type} : List (String × α) → String → Option α
  | [], _ => none
  | (k', v) :: m, k => if k' = k then some v else dget m k

/-- Dict membership test `k in m`. -/
def dcontains {α : Type} (m : List (String × α)) (k : String) : Bool :=
  (dget m k).isSome

/-- Dict assignment `m[k] = v`: overwrite in place, or append. -/
def dinsert {α : Type} : List (String × α) → String → α → List (String × α)
  | [], k, v => [(k, v)]
  | (k', v') :: m, k, v =>
    if k' = k then (k, v) :: m else (k', v') :: dinsert m k v

/-- Dict deletion `del m[k]`: drop the entry stored under `k`. -/
def derase {α : Type} : List (String × α) → String → List (String × α)
  | [], _ => []
  | (k', v) :: m, k => if k' = k then derase m k else (k', v) :: derase m k

/-! ## The data model (`Node`, `DistributedFileStorageSystem`) -/

/-- Embedding of the Python class `Node`: a storage node with its
identifier and its local mapping from file id (ContentID) to payload
bytes. -/
structure Node where
  node_id : String
  files : List (String × List Nat)
  deriving DecidableEq, Repr

/-- Embedding of `Node.store_file`: `self.files[file_id] = data`. -/
def Node.store_file (n : Node) (file_id : String) (data : List Nat) : Node :=
  { n with files := dinsert n.files file_id data }

/-- Embedding of `Node.get_file`: `self.files.get(file_id, None)`. -/
def Node.get_file (n : Node) (file_id : String) : Option (List Nat) :=
  dget n.files file_id

/-- Embedding of `Node.delete_file`: delete the entry if present, no-op
otherwise. -/
def Node.delete_file (n : Node) (file_id : String) : Node :=
  { n with files := derase n.files file_id }

/-- Metadata value stored in `file_map`: the dict
`{"filename": ..., "nodes": [...]}` built by `store_file`. -/
structure FileRecord where
  filename : String
  nodes : List String
  deriving DecidableEq, Repr

/-- Embedding of the class `DistributedFileStorageSystem`: the node list,
the ContentID → record directory, and the replication factor. The
`threading.Lock` field is omitted (sequential embedding). -/
structure DistributedFileStorageSystem where
  nodes : List Node
  file_map : List (String × FileRecord)
  num_replicas : Nat
  deriving DecidableEq, Repr

namespace DistributedFileStorageSystem

/-- Embedding of `add_node`: `self.nodes.append(node)`. -/
def add_node (s : DistributedFileStorageSystem) (node : Node) :
    DistributedFileStorageSystem :=
  { s with nodes := s.nodes ++ [node] }

/-- Embedding of `remove_node`: keep the nodes whose id differs. -/
def remove_node (s : DistributedFileStorageSystem) (node_id : String) :
    DistributedFileStorageSystem :=
  { s with nodes := s.nodes.filter fun node => !(node.node_id == node_id) }

/-- Replace the element at position `i`, as Python's write through an
object reference held in the list does. -/
def listModify {α : Type} : List α → Nat → (α → α) → List α
  | [], _, _ => []
  | a :: as, 0, f => f a :: as
  | a :: as, i + 1, f => a :: listModify as i f

/-- Write the payload to every selected node position:
`for node in selected_nodes: node.store_file(file_id, data)`. -/
def writeSel (nodes : List Node) (sel : List Nat) (file_id : String)
    (data : List Nat) : List Node :=
  sel.foldl (fun ns i => listModify ns i fun n => n.store_file file_id data) nodes

/-- The error outcome of `store_file`. `random.sample(self.nodes,
self.num_replicas)` raises an uncaught `ValueError` when the sample size
exceeds the population; in the spec's taxonomy this failure is
InsufficientReplicas. The store fails before any write. -/
inductive StoreError where
  | insufficientReplicas
  deriving DecidableEq, Repr

/-- Embedding of `store_file`. The positions sampled by `random.sample`
are passed explicitly as `sel`; a genuine sample is a `Nodup` list of
in-range positions of length `num_replicas` (theorems that need these
facts hypothesise them). Returns the outcome together with the state
after the call. -/
def store_file (s : DistributedFileStorageSystem) (filename : String)
    (data : List Nat) (sel : List Nat) :
    Except StoreError String × DistributedFileStorageSystem :=
  let file_id := hash_file data
  if dcontains s.file_map file_id then
    (.ok file_id, s)
  else if s.nodes.length < s.num_replicas then
    (.error .insufficientReplicas, s)
  else
    let selIds := sel.filterMap fun i => (s.nodes[i]?).map Node.node_id
    let nodes' := writeSel s.nodes sel file_id data
    (.ok file_id,
      { s with
        nodes := nodes'
        file_map := dinsert s.file_map file_id ⟨filename, selIds⟩ })

/-- Embedding of `next((n for n in self.nodes if n.node_id == node_id), None)`:
the first registry node carrying the given id, if any. -/
def firstWith (node_id : String) : List Node → Option Node
  | [] => none
  | n :: rest => if n.node_id = node_id then some n else firstWith node_id rest

/-- The replica-probing loop of `retrieve_file`: for each recorded node id
look up the first registry node with that id and ask it for the data; data
counts only when truthy (Python `if data:`), so `None` and the empty
payload are both skipped. -/
def retrieveLoop (nodes : List Node) (file_id : String) : List String → Option (List Nat)
  | [] => none
  | node_id :: rest =>
    match firstWith node_id nodes with
    | none => retrieveLoop nodes file_id rest
    | some node =>
      match node.get_file file_id with
      | none => retrieveLoop nodes file_id rest
      | some data =>
        if data = [] then retrieveLoop nodes file_id rest else some data

/-- Embedding of `retrieve_file`. The method mutates nothing; the state
after the call is returned alongside the result so that this is a
provable fact rather than a typing convention. `none` is the Python
`return None`, reached both when the id has no record and when no listed
node yields a truthy payload. -/
def retrieve_file (s : DistributedFileStorageSystem) (file_id : String) :
    Option (List Nat) × DistributedFileStorageSystem :=
  match dget s.file_map file_id with
  | none => (none, s)
  | some record => (retrieveLoop s.nodes file_id record.nodes, s)

/-- In-place update of the first registry node carrying the given id:
the Python loop body finds the node object and mutates it, leaving the
list itself and every other node untouched. -/
def applyFirst (node_id file_id : String) : List Node → List Node
  | [] => []
  | n :: rest =>
    if n.node_id = node_id then n.delete_file file_id :: rest
    else n :: applyFirst node_id file_id rest

/-- The node-deletion loop of `delete_file`: for each recorded node id,
the first registry node with that id (if any) deletes its entry; an id
with no registry node is skipped. -/
def deleteLoop (nodes : List Node) (file_id : String) : List String → List Node
  | [] => nodes
  | node_id :: rest => deleteLoop (applyFirst node_id file_id nodes) file_id rest

/-- Embedding of `delete_file`: `False` when the id has no record;
otherwise delete from every still-registered recorded node (first
registry match per id), then remove the record and return `True`. -/
def delete_file (s : DistributedFileStorageSystem) (file_id : String) :
    Bool × DistributedFileStorageSystem :=
  match dget s.file_map file_id with
  | none => (false, s)
  | some record =>
    (true,
      { s with
        nodes := deleteLoop s.nodes file_id record.nodes
        file_map := derase s.file_map file_id })

end DistributedFileStorageSystem

/-- The coordinator operations reachable from the transport layer,
with the `random.sample` outcome carried inside the store operation. -/
inductive Op where
  | addNode (node : Node)
  | removeNode (node_id : String)
  | storeOp (filename : String) (data : List Nat) (sel : List Nat)
  | retrieveOp (file_id : String)
  | deleteOp (file_id : String)

open DistributedFileStorageSystem in
/-- The state reached after one operation. -/
def applyOp (s : DistributedFileStorageSystem) : Op → DistributedFileStorageSystem
  | .addNode n => s.add_node n
  | .removeNode nid => s.remove_node nid
  | .storeOp f d sel => (s.store_file f d sel).2
  | .retrieveOp fid => (s.retrieve_file fid).2
  | .deleteOp fid => (s.delete_file fid).2

/-! ## Concrete scenario states

Small runs of the system, built exclusively by the operations above from
the freshly initialised coordinator, used as concrete instances below. -/

/-- One-node system with payload `[72]` stored on the single node `n1`
(replication factor 1, sampled position 0). -/
def storedState : DistributedFileStorageSystem :=
  (((⟨[], [], 1⟩ : DistributedFileStorageSystem).add_node
      ⟨"n1", []⟩).store_file "f" [72] [0]).2

/-- The same run, continued by removing node `n1` from the registry: the
record survives but every replica node has departed. -/
def departedState : DistributedFileStorageSystem :=
  storedState.remove_node "n1"

/-- One-node system after storing the empty payload on node `n1`. -/
def emptyStoredState : DistributedFileStorageSystem :=
  (((⟨[], [], 1⟩ : DistributedFileStorageSystem).add_node
      ⟨"n1", []⟩).store_file "e" [] [0]).2

/-- A run in which two distinct nodes carrying the same id `"a"` are
registered (the registry accepts the duplicate), and payload `[72]` is
then stored on both (replication factor 2, sampled positions 0 and 1). -/
def dupStoreState : DistributedFileStorageSystem :=
  ((((⟨[], [], 2⟩ : DistributedFileStorageSystem).add_node
      ⟨"a", []⟩).add_node ⟨"a", []⟩).store_file "f" [72] [0, 1]).2

/-! ## Dictionary and list lemmas -/

set_option maxRecDepth 40000

open DistributedFileStorageSystem

theorem dget_nil {α : Type} (k : String) : dget ([] : List (String × α)) k = none := rfl

theorem dget_dinsert_self {α : Type} (m : List (String × α)) (k : String) (v : α) :
    dget (dinsert m k v) k = some v := by
  induction m with
  | nil => simp [dinsert, dget]
  | cons p m ih =>
    obtain ⟨k1, v1⟩ := p
    by_cases h : k1 = k
    · simp [dinsert, dget, h]
    · simp [dinsert, dget, h, ih]

theorem dget_dinsert_ne {α : Type} (m : List (String × α)) (k k' : String) (v : α)
    (h : k' ≠ k) : dget (dinsert m k v) k' = dget m k' := by
  have hk : ¬(k = k') := fun hh => h hh.symm
  induction m with
  | nil => simp [dinsert, dget, hk]
  | cons p m ih =>
    obtain ⟨k1, v1⟩ := p
    by_cases hp : k1 = k
    · subst hp
      simp [dinsert, dget, hk]
    · simp [dinsert, dget, hp, ih]

theorem dget_derase_self {α : Type} (m : List (String × α)) (k : String) :
    dget (derase m k) k = none := by
  induction m with
  | nil => rfl
  | cons p m ih =>
    obtain ⟨k1, v1⟩ := p
    by_cases h : k1 = k
    · simp [derase, h, ih]
    · simp [derase, dget, h, ih]

theorem dget_derase_ne {α : Type} (m : List (String × α)) (k k' : String)
    (h : k' ≠ k) : dget (derase m k) k' = dget m k' := by
  induction m with
  | nil => rfl
  | cons p m ih =>
    obtain ⟨k1, v1⟩ := p
    by_cases hp : k1 = k
    · subst hp
      have hk : ¬(k1 = k') := fun hh => h hh.symm
      simp [derase, dget, hk, ih]
    · simp [derase, dget, hp, ih]

theorem derase_derase {α : Type} (m : List (String × α)) (k : String) :
    derase (derase m k) k = derase m k := by
  induction m with
  | nil => rfl
  | cons p m ih =>
    obtain ⟨k1, v1⟩ := p
    by_cases h : k1 = k
    · simp [derase, h, ih]
    · simp [derase, h, ih]

theorem dinsert_dinsert_self {α : Type} (m : List (String × α)) (k : String) (v : α) :
    dinsert (dinsert m k v) k v = dinsert m k v := by
  induction m with
  | nil => simp [dinsert]
  | cons p m ih =>
    obtain ⟨k1, v1⟩ := p
    by_cases h : k1 = k
    · simp [dinsert, h]
    · simp [dinsert, h, ih]

theorem mem_of_firstWith {nid : String} {l : List Node} {n : Node}
    (h : firstWith nid l = some n) : n ∈ l := by
  induction l with
  | nil => simp [firstWith] at h
  | cons m rest ih =>
    by_cases hm : m.node_id = nid
    · simp [firstWith, hm] at h
      simp [h]
    · simp only [firstWith, if_neg hm] at h
      exact List.mem_cons_of_mem _ (ih h)

theorem node_id_firstWith {nid : String} {l : List Node} {n : Node}
    (h : firstWith nid l = some n) : n.node_id = nid := by
  induction l with
  | nil => simp [firstWith] at h
  | cons m rest ih =>
    by_cases hm : m.node_id = nid
    · simp [firstWith, hm] at h
      rw [← h]
      exact hm
    · simp only [firstWith, if_neg hm] at h
      exact ih h

theorem mem_listModify {α : Type} {l : List α} {i : Nat} {f : α → α} {m : α}
    (h : m ∈ listModify l i f) : m ∈ l ∨ ∃ a ∈ l, m = f a := by
  induction l generalizing i with
  | nil => simp [listModify] at h
  | cons a as ih =>
    cases i with
    | zero =>
      rcases List.mem_cons.mp h with h1 | h1
      · exact Or.inr ⟨a, List.mem_cons_self .., h1⟩
      · exact Or.inl (List.mem_cons_of_mem _ h1)
    | succ i =>
      rcases List.mem_cons.mp h with h1 | h1
      · exact Or.inl (h1 ▸ List.mem_cons_self ..)
      · rcases ih h1 with h2 | ⟨b, hb, h2⟩
        · exact Or.inl (List.mem_cons_of_mem _ h2)
        · exact Or.inr ⟨b, List.mem_cons_of_mem _ hb, h2⟩

theorem listModify_getElem? {α : Type} (l : List α) (i : Nat) (f : α → α) :
    (listModify l i f)[i]? = (l[i]?).map f := by
  induction l generalizing i with
  | nil => simp [listModify]
  | cons a as ih =>
    cases i with
    | zero => simp [listModify]
    | succ i => simpa [listModify] using ih i

theorem listModify_getElem?_ne {α : Type} (l : List α) (i j : Nat) (f : α → α)
    (h : j ≠ i) : (listModify l i f)[j]? = l[j]? := by
  induction l generalizing i j with
  | nil => simp [listModify]
  | cons a as ih =>
    cases i with
    | zero =>
      cases j with
      | zero => exact absurd rfl h
      | succ j => simp [listModify]
    | succ i =>
      cases j with
      | zero => simp [listModify]
      | succ j => simpa [listModify] using ih i j (fun hh => h (by omega))

theorem writeSel_forall {P : Node → Prop} {nodes : List Node} {sel : List Nat}
    {fid : String} {d : List Nat}
    (h0 : ∀ n ∈ nodes, P n) (hstep : ∀ n, P n → P (n.store_file fid d)) :
    ∀ m ∈ writeSel nodes sel fid d, P m := by
  induction sel generalizing nodes with
  | nil => exact h0
  | cons i rest ih =>
    intro m hm
    refine ih (fun n hn => ?_) m hm
    rcases mem_listModify hn with h1 | ⟨a, ha, h1⟩
    · exact h0 n h1
    · exact h1 ▸ hstep a (h0 a ha)

theorem writeSel_getElem?_not_mem {nodes : List Node} {sel : List Nat}
    {fid : String} {d : List Nat} {i : Nat} (h : i ∉ sel) :
    (writeSel nodes sel fid d)[i]? = nodes[i]? := by
  induction sel generalizing nodes with
  | nil => rfl
  | cons j rest ih =>
    have hji : i ≠ j := fun hh => h (hh ▸ List.mem_cons_self ..)
    have hr : i ∉ rest := fun hh => h (List.mem_cons_of_mem _ hh)
    calc (writeSel nodes (j :: rest) fid d)[i]?
        = (listModify nodes j fun n => n.store_file fid d)[i]? := ih hr
      _ = nodes[i]? := listModify_getElem?_ne _ _ _ _ hji

theorem store_file_store_file (n : Node) (fid : String) (d : List Nat) :
    (n.store_file fid d).store_file fid d = n.store_file fid d := by
  simp [Node.store_file, dinsert_dinsert_self]

theorem writeSel_getElem?_mem {nodes : List Node} {sel : List Nat}
    {fid : String} {d : List Nat} {i : Nat} (h : i ∈ sel) :
    (writeSel nodes sel fid d)[i]? = (nodes[i]?).map fun n => n.store_file fid d := by
  induction sel generalizing nodes with
  | nil => simp at h
  | cons j rest ih =>
    by_cases hr : i ∈ rest
    · have step : (writeSel nodes (j :: rest) fid d)[i]?
          = ((listModify nodes j fun n => n.store_file fid d)[i]?).map
              fun n => n.store_file fid d := ih hr
      by_cases hij : i = j
      · subst hij
        rw [step, listModify_getElem?]
        cases nodes[i]? with
        | none => rfl
        | some n => simp [store_file_store_file]
      · rw [step, listModify_getElem?_ne _ _ _ _ hij]
    · have hij : i = j := by
        rcases List.mem_cons.mp h with h1 | h1
        · exact h1
        · exact absurd h1 hr
      subst hij
      calc (writeSel nodes (i :: rest) fid d)[i]?
          = (listModify nodes i fun n => n.store_file fid d)[i]? :=
            writeSel_getElem?_not_mem hr
        _ = (nodes[i]?).map fun n => n.store_file fid d := listModify_getElem? _ _ _

theorem retrieveLoop_eq_none {nodes : List Node} {fid : String} {nids : List String}
    (h : ∀ nid ∈ nids, ∀ n, firstWith nid nodes = some n →
      n.get_file fid = none ∨ n.get_file fid = some []) :
    retrieveLoop nodes fid nids = none := by
  induction nids with
  | nil => rfl
  | cons nid rest ih =>
    have hrest : retrieveLoop nodes fid rest = none :=
      ih fun nid2 h2 => h nid2 (List.mem_cons_of_mem _ h2)
    cases hf : firstWith nid nodes with
    | none => simp [retrieveLoop, hf, hrest]
    | some n =>
      rcases h nid (List.mem_cons_self ..) n hf with hd | hd
      · simp [retrieveLoop, hf, hd, hrest]
      · simp [retrieveLoop, hf, hd, hrest]

theorem retrieveLoop_eq_some {nodes : List Node} {fid : String} {P : List Nat}
    (hP : P ≠ [])
    (hall : ∀ n ∈ nodes, ∀ d, n.get_file fid = some d → d = P) :
    ∀ {nids : List String},
      (∃ nid ∈ nids, ∃ n, firstWith nid nodes = some n ∧ n.get_file fid = some P) →
      retrieveLoop nodes fid nids = some P := by
  intro nids
  induction nids with
  | nil => rintro ⟨nid, h, _⟩; simp at h
  | cons nid0 rest ih =>
    rintro ⟨nid, hmem, n, hfw, hget⟩
    cases hf : firstWith nid0 nodes with
    | none =>
      rcases List.mem_cons.mp hmem with h1 | h1
      · subst h1
        rw [hf] at hfw
        exact absurd hfw (by simp)
      · simpa [retrieveLoop, hf] using ih ⟨nid, h1, n, hfw, hget⟩
    | some m =>
      cases hd : m.get_file fid with
      | none =>
        rcases List.mem_cons.mp hmem with h1 | h1
        · subst h1
          rw [hf] at hfw
          cases hfw
          rw [hget] at hd
          cases hd
        · simpa [retrieveLoop, hf, hd] using ih ⟨nid, h1, n, hfw, hget⟩
      | some d =>
        have hdP : d = P := hall m (mem_of_firstWith hf) d hd
        subst hdP
        simp [retrieveLoop, hf, hd, hP]

theorem node_id_delete_file (n : Node) (fid : String) :
    (n.delete_file fid).node_id = n.node_id := rfl

theorem map_untouched_of_not_carrying {nid fid : String} {l : List Node}
    (h : ∀ x ∈ l, x.node_id ≠ nid) :
    (l.map fun n => if n.node_id = nid then n.delete_file fid else n) = l := by
  conv_rhs => rw [show l = l.map id from (List.map_id l).symm]
  refine List.map_congr_left fun a ha => ?_
  simp [h a ha]

theorem applyFirst_eq_map {nid fid : String} {l : List Node}
    (hnodup : (l.map Node.node_id).Nodup) :
    applyFirst nid fid l = l.map fun n => if n.node_id = nid then n.delete_file fid else n := by
  induction l with
  | nil => rfl
  | cons m rest ih =>
    rw [List.map_cons, List.nodup_cons] at hnodup
    by_cases hm : m.node_id = nid
    · have hrest : ∀ x ∈ rest, x.node_id ≠ nid := by
        intro x hx hxnid
        exact hnodup.1 (hm ▸ hxnid ▸ List.mem_map_of_mem Node.node_id hx)
      simp [applyFirst, hm, map_untouched_of_not_carrying hrest]
    · simp [applyFirst, hm, ih hnodup.2]

theorem delete_file_delete_file (n : Node) (fid : String) :
    (n.delete_file fid).delete_file fid = n.delete_file fid := by
  simp [Node.delete_file, derase_derase]

theorem map_node_id_if_delete (l : List Node) (nid fid : String) :
    ((l.map fun n => if n.node_id = nid then n.delete_file fid else n).map Node.node_id) =
      l.map Node.node_id := by
  rw [List.map_map]
  refine List.map_congr_left fun a _ => ?_
  by_cases h : a.node_id = nid <;> simp [Function.comp, h, node_id_delete_file]

theorem deleteLoop_eq_map {nodes : List Node} {fid : String}
    (hnodup : (nodes.map Node.node_id).Nodup) (nids : List String) :
    deleteLoop nodes fid nids =
      nodes.map fun n => if n.node_id ∈ nids then n.delete_file fid else n := by
  induction nids generalizing nodes with
  | nil => simp [deleteLoop]
  | cons nid rest ih =>
    rw [deleteLoop, applyFirst_eq_map hnodup]
    have hnodup2 :
        (((nodes.map fun n => if n.node_id = nid then n.delete_file fid else n)).map
          Node.node_id).Nodup := by
      rw [map_node_id_if_delete]
      exact hnodup
    rw [ih hnodup2, List.map_map]
    refine List.map_congr_left fun a _ => ?_
    by_cases h1 : a.node_id = nid
    · by_cases h2 : a.node_id ∈ rest
      · simp [Function.comp, h1, h2, node_id_delete_file, delete_file_delete_file]
      · simp [Function.comp, h1, h2, node_id_delete_file, delete_file_delete_file]
    · by_cases h2 : a.node_id ∈ rest
      · simp [Function.comp, h1, h2]
      · simp [Function.comp, h1, h2]

theorem retrieve_file_snd (s : DistributedFileStorageSystem) (fid : String) :
    (s.retrieve_file fid).2 = s := by
  cases h : dget s.file_map fid <;> simp [retrieve_file, h]

/-! ## The claims -/

/-- C1: with fewer registered nodes than the replication factor, storing a
payload whose ContentID has no directory record fails with
InsufficientReplicas (the uncaught `random.sample` error), and the state —
directory and every node's local file mapping — is exactly as before. -/
theorem store_insufficient_replicas_frame (s : DistributedFileStorageSystem)
    (filename : String) (data : List Nat) (sel : List Nat)
    (hno : dget s.file_map (hash_file data) = none)
    (hshort : s.nodes.length < s.num_replicas) :
    s.store_file filename data sel = (.error .insufficientReplicas, s) := by
  simp [store_file, dcontains, hno, hshort]

/-- Witness for C1: the empty three-replica system rejects a store. -/
theorem store_insufficient_replicas_frame_witness :
    (⟨[], [], 3⟩ : DistributedFileStorageSystem).store_file "f" [72] [] =
      (.error .insufficientReplicas, ⟨[], [], 3⟩) :=
  store_insufficient_replicas_frame ⟨[], [], 3⟩ "f" [72] [] rfl (by decide)

/-- C5 counterexample: adding a node whose NodeID `"a"` is already
registered is not a no-op — the registry's node list changes. -/
theorem add_node_duplicate_cex :
    ((⟨[⟨"a", []⟩], [], 3⟩ : DistributedFileStorageSystem).add_node ⟨"a", []⟩).nodes ≠
      (⟨[⟨"a", []⟩], [], 3⟩ : DistributedFileStorageSystem).nodes := by
  decide

/-- C5 amended: `add_node` appends unconditionally — there is no duplicate
check — so the registry can hold several nodes with the same NodeID; the
directory is untouched. -/
theorem add_node_appends (s : DistributedFileStorageSystem) (n : Node) :
    (s.add_node n).nodes = s.nodes ++ [n] ∧ (s.add_node n).file_map = s.file_map :=
  ⟨rfl, rfl⟩

/-- C6: after a successful delete the id has no directory record, so a
retrieve fails through the NotFound branch (no record for the id). -/
theorem delete_then_retrieve_notfound (s s' : DistributedFileStorageSystem)
    (fid : String) (h : s.delete_file fid = (true, s')) :
    dget s'.file_map fid = none ∧ (s'.retrieve_file fid).1 = none := by
  cases hd : dget s.file_map fid with
  | none => simp [delete_file, hd] at h
  | some r =>
    simp only [delete_file, hd, Prod.mk.injEq, true_and] at h
    subst h
    exact ⟨dget_derase_self _ _, by simp [retrieve_file, dget_derase_self]⟩

/-- Witness for C6: deleting the only record empties the directory and the
subsequent retrieve misses. -/
theorem delete_then_retrieve_notfound_witness :
    dget (⟨[], [], 3⟩ : DistributedFileStorageSystem).file_map "k" = none ∧
    ((⟨[], [], 3⟩ : DistributedFileStorageSystem).retrieve_file "k").1 = none :=
  delete_then_retrieve_notfound ⟨[], [("k", ⟨"f", []⟩)], 3⟩ ⟨[], [], 3⟩ "k" (by decide)

/-- C10: `retrieve_file` is read-only — the registry node list, the
replica directory and (with them) every node's local file mapping are
exactly as before the call. -/
theorem retrieve_file_readonly (s : DistributedFileStorageSystem) (fid : String) :
    (s.retrieve_file fid).2.nodes = s.nodes ∧
    (s.retrieve_file fid).2.file_map = s.file_map ∧
    (s.retrieve_file fid).2 = s :=
  ⟨by rw [retrieve_file_snd], by rw [retrieve_file_snd], retrieve_file_snd s fid⟩

/-- C4: a second store of the same payload returns the same ContentID and
leaves the state — nodes and directory — exactly as after the first store
(the idempotent short-circuit fires). -/
theorem store_idempotent (s s' : DistributedFileStorageSystem) (f1 f2 fid : String)
    (data : List Nat) (sel1 sel2 : List Nat)
    (h : s.store_file f1 data sel1 = (.ok fid, s')) :
    s'.store_file f2 data sel2 = (.ok fid, s') := by
  by_cases hc : dcontains s.file_map (hash_file data) = true
  · simp only [store_file, hc, if_true, Prod.mk.injEq, Except.ok.injEq] at h
    obtain ⟨h1, h2⟩ := h
    subst h1
    subst h2
    simp [store_file, hc]
  · by_cases hl : s.nodes.length < s.num_replicas
    · simp [store_file, hc, hl] at h
    · simp only [store_file, hc, hl, if_false, if_true, Bool.false_eq_true,
        Prod.mk.injEq, Except.ok.injEq] at h
      obtain ⟨h1, h2⟩ := h
      subst h1
      subst h2
      simp [store_file, dcontains, dget_dinsert_self]

/-- Witness for C4: re-storing payload `[72]` in the one-node system is a
no-op returning the same digest. -/
theorem store_idempotent_witness :
    storedState.store_file "g" [72] [1] = (.ok (hash_file [72]), storedState) :=
  store_idempotent ((⟨[], [], 1⟩ : DistributedFileStorageSystem).add_node ⟨"n1", []⟩)
    storedState "f" "g" (hash_file [72]) [72] [0] [1] rfl

/-- C2 counterexample: the never-stored failure and the all-replicas-
departed failure both surface as the same value `none` (Python `None`),
so the caller cannot distinguish NotFound from Unretrievable. The second
state is reached by add, store and remove; its directory still records the
content on the departed node `"n1"`. -/
theorem retrieve_failures_indistinguishable_cex :
    dget departedState.file_map (hash_file [72]) = some ⟨"f", ["n1"]⟩ ∧
    departedState.nodes = [] ∧
    dget (⟨[], [], 1⟩ : DistributedFileStorageSystem).file_map (hash_file [72]) = none ∧
    (departedState.retrieve_file (hash_file [72])).1 =
      ((⟨[], [], 1⟩ : DistributedFileStorageSystem).retrieve_file (hash_file [72])).1 := by
  decide

/-- C2 amended: a retrieve of an id with no directory record returns
`None`, and a retrieve of a recorded id none of whose listed nodes yields
a truthy payload also returns `None`; the two failures produce the
identical value and are not distinguishable by the caller. -/
theorem retrieve_notfound_unretrievable_amended
    (s1 s2 : DistributedFileStorageSystem) (fid : String) (r : FileRecord)
    (h1 : dget s1.file_map fid = none)
    (h2 : dget s2.file_map fid = some r)
    (h3 : ∀ nid ∈ r.nodes, ∀ n, firstWith nid s2.nodes = some n →
      n.get_file fid = none ∨ n.get_file fid = some []) :
    (s1.retrieve_file fid).1 = none ∧ (s2.retrieve_file fid).1 = none ∧
    (s1.retrieve_file fid).1 = (s2.retrieve_file fid).1 := by
  have e1 : (s1.retrieve_file fid).1 = none := by simp [retrieve_file, h1]
  have e2 : (s2.retrieve_file fid).1 = none := by
    simp [retrieve_file, h2, retrieveLoop_eq_none h3]
  exact ⟨e1, e2, e1.trans e2.symm⟩

/-- Witness for the amended C2, at the fresh system and the
all-replicas-departed system. -/
theorem retrieve_notfound_unretrievable_amended_witness :
    ((⟨[], [], 1⟩ : DistributedFileStorageSystem).retrieve_file (hash_file [72])).1 = none ∧
    (departedState.retrieve_file (hash_file [72])).1 = none ∧
    ((⟨[], [], 1⟩ : DistributedFileStorageSystem).retrieve_file (hash_file [72])).1 =
      (departedState.retrieve_file (hash_file [72])).1 :=
  retrieve_notfound_unretrievable_amended ⟨[], [], 1⟩ departedState (hash_file [72])
    ⟨"f", ["n1"]⟩ rfl (by decide)
    (by
      intro nid hnid n hn
      rw [show departedState.nodes = [] from by decide] at hn
      simp [firstWith] at hn)

/-- C3 counterexample: the empty payload is stored and its only replica
node is still registered and still holds it, yet retrieve returns `none`
instead of the payload (Python's `if data:` treats `b''` as missing). -/
theorem retrieve_empty_payload_cex :
    dget emptyStoredState.file_map (hash_file []) = some ⟨"e", ["n1"]⟩ ∧
    emptyStoredState.nodes = [⟨"n1", [(hash_file [], [])]⟩] ∧
    (emptyStoredState.retrieve_file (hash_file [])).1 ≠ some [] ∧
    (emptyStoredState.retrieve_file (hash_file [])).1 = none := by
  decide

/-- C3 amended: for a nonempty payload P recorded under an id, if every
registered node holding the id holds P (content addressing) and the
registry lookup of at least one listed NodeID finds a node holding P,
then retrieve returns P. -/
theorem retrieve_returns_stored_payload (s : DistributedFileStorageSystem)
    (fid : String) (r : FileRecord) (P : List Nat)
    (hrec : dget s.file_map fid = some r)
    (hP : P ≠ [])
    (hall : ∀ n ∈ s.nodes, ∀ d, n.get_file fid = some d → d = P)
    (hlive : ∃ nid ∈ r.nodes, ∃ n, firstWith nid s.nodes = some n ∧
      n.get_file fid = some P) :
    (s.retrieve_file fid).1 = some P := by
  simp [retrieve_file, hrec, retrieveLoop_eq_some hP hall hlive]

/-- Witness for the amended C3: payload `[72]` is retrieved from the
one-node system that stores it. -/
theorem retrieve_returns_stored_payload_witness :
    (storedState.retrieve_file (hash_file [72])).1 = some [72] :=
  retrieve_returns_stored_payload storedState (hash_file [72]) ⟨"f", ["n1"]⟩ [72]
    (by decide) (by decide)
    (by
      intro n hn d hd
      rw [show storedState.nodes = [⟨"n1", [(hash_file [72], [72])]⟩] from by decide] at hn
      simp at hn
      subst hn
      simp [Node.get_file, dget] at hd
      exact hd.symm)
    ⟨"n1", by decide, ⟨"n1", [(hash_file [72], [72])]⟩, by decide, by decide⟩

/-- C9: storing the empty payload succeeds, creates the directory record,
and writes the empty bytes to every selected node, yet the subsequent
retrieve of its ContentID reports the content absent even though the
replica nodes still hold it — retrieval's truthiness test drops empty
payloads. -/
theorem store_empty_retrieve_absent (s : DistributedFileStorageSystem)
    (f : String) (sel : List Nat)
    (hno : dget s.file_map (hash_file []) = none)
    (hlen : s.num_replicas ≤ s.nodes.length)
    (hsel : ∀ i ∈ sel, i < s.nodes.length)
    (hclean : ∀ n ∈ s.nodes, n.get_file (hash_file []) = none) :
    (s.store_file f [] sel).1 = .ok (hash_file []) ∧
    dget (s.store_file f [] sel).2.file_map (hash_file []) =
      some ⟨f, sel.filterMap fun i => (s.nodes[i]?).map Node.node_id⟩ ∧
    (∀ i ∈ sel, ∃ n, (s.store_file f [] sel).2.nodes[i]? = some n ∧
      n.get_file (hash_file []) = some []) ∧
    ((s.store_file f [] sel).2.retrieve_file (hash_file [])).1 = none := by
  have hnc : dcontains s.file_map (hash_file []) = false := by simp [dcontains, hno]
  have hnl : ¬s.nodes.length < s.num_replicas := not_lt.mpr hlen
  refine ⟨?_, ?_, ?_, ?_⟩
  · simp [store_file, hnc, hnl]
  · simp [store_file, hnc, hnl, dget_dinsert_self]
  · intro i hi
    have hlt := hsel i hi
    obtain ⟨n0, hn0⟩ : ∃ n0, s.nodes[i]? = some n0 :=
      ⟨s.nodes[i], List.getElem?_eq_getElem hlt⟩
    refine ⟨n0.store_file (hash_file []) [], ?_, ?_⟩
    · simp only [store_file, hnc, Bool.false_eq_true, if_false, hnl]
      rw [writeSel_getElem?_mem hi, hn0]
      rfl
    · simp [Node.store_file, Node.get_file, dget_dinsert_self]
  · simp only [store_file, hnc, Bool.false_eq_true, if_false, hnl, retrieve_file,
      dget_dinsert_self]
    refine retrieveLoop_eq_none fun nid hnid n hfw => ?_
    exact writeSel_forall (P := fun m =>
        m.get_file (hash_file []) = none ∨ m.get_file (hash_file []) = some [])
      (fun n2 hn2 => Or.inl (hclean n2 hn2))
      (fun n2 _ => Or.inr (by simp [Node.store_file, Node.get_file, dget_dinsert_self]))
      n (mem_of_firstWith hfw)

/-- Witness for C9, at the fresh one-node system. -/
theorem store_empty_retrieve_absent_witness :
    ((⟨[⟨"n1", []⟩], [], 1⟩ : DistributedFileStorageSystem).store_file "e" [] [0]).1 =
      .ok (hash_file []) ∧
    dget ((⟨[⟨"n1", []⟩], [], 1⟩ : DistributedFileStorageSystem).store_file "e" [] [0]).2.file_map
        (hash_file []) =
      some ⟨"e", [0].filterMap fun i =>
        (((⟨[⟨"n1", []⟩], [], 1⟩ : DistributedFileStorageSystem).nodes)[i]?).map Node.node_id⟩ ∧
    (∀ i ∈ ([0] : List Nat), ∃ n,
      ((⟨[⟨"n1", []⟩], [], 1⟩ : DistributedFileStorageSystem).store_file "e" [] [0]).2.nodes[i]? =
        some n ∧ n.get_file (hash_file []) = some []) ∧
    (((⟨[⟨"n1", []⟩], [], 1⟩ : DistributedFileStorageSystem).store_file "e" [] [0]).2.retrieve_file
        (hash_file [])).1 = none :=
  store_empty_retrieve_absent ⟨[⟨"n1", []⟩], [], 1⟩ "e" [0] rfl (by decide) (by decide)
    (by
      intro n hn
      simp at hn
      subst hn
      rfl)

/-- C7 counterexample: with two registered nodes sharing NodeID `"a"`
(both listed in the record and both holding the payload), delete reports
success and removes the record, but the node-level deletes reach only the
first registry match, so a still-registered listed node still holds the
payload afterwards. -/
theorem delete_duplicate_nodeid_cex :
    dget dupStoreState.file_map (hash_file [72]) = some ⟨"f", ["a", "a"]⟩ ∧
    (dupStoreState.delete_file (hash_file [72])).1 = true ∧
    dget (dupStoreState.delete_file (hash_file [72])).2.file_map (hash_file [72]) = none ∧
    (dupStoreState.delete_file (hash_file [72])).2.nodes[1]? =
      some ⟨"a", [(hash_file [72], [72])]⟩ := by
  decide

/-- C7 amended: when the registry's NodeIDs are pairwise distinct, a
delete of a recorded id calls the node-level delete on exactly the listed
NodeIDs still present in the registry (departed ids are skipped, unlisted
nodes untouched), removes the record unconditionally, reports success,
and afterwards no still-registered listed node holds the payload. -/
theorem delete_file_spec_amended (s : DistributedFileStorageSystem) (fid : String)
    (r : FileRecord)
    (hrec : dget s.file_map fid = some r)
    (hnodup : (s.nodes.map Node.node_id).Nodup) :
    s.delete_file fid =
      (true, ⟨s.nodes.map fun n => if n.node_id ∈ r.nodes then n.delete_file fid else n,
              derase s.file_map fid, s.num_replicas⟩) ∧
    dget (s.delete_file fid).2.file_map fid = none ∧
    ∀ n ∈ (s.delete_file fid).2.nodes, n.node_id ∈ r.nodes → n.get_file fid = none := by
  have hd : s.delete_file fid =
      (true, ⟨deleteLoop s.nodes fid r.nodes, derase s.file_map fid, s.num_replicas⟩) := by
    simp [delete_file, hrec]
  refine ⟨?_, ?_, ?_⟩
  · rw [hd, deleteLoop_eq_map hnodup]
  · rw [hd]
    exact dget_derase_self _ _
  · rw [hd]
    intro n hn hmem
    rw [show (true, (⟨deleteLoop s.nodes fid r.nodes, derase s.file_map fid,
        s.num_replicas⟩ : DistributedFileStorageSystem)).2.nodes =
        deleteLoop s.nodes fid r.nodes from rfl, deleteLoop_eq_map hnodup,
      List.mem_map] at hn
    obtain ⟨a, ha, he⟩ := hn
    by_cases h1 : a.node_id ∈ r.nodes
    · rw [if_pos h1] at he
      rw [← he]
      simp [Node.delete_file, Node.get_file, dget_derase_self]
    · rw [if_neg h1] at he
      rw [← he] at hmem
      exact absurd hmem h1

/-- Witness for the amended C7, at the one-node system holding `[72]`. -/
theorem delete_file_spec_amended_witness :
    storedState.delete_file (hash_file [72]) =
      (true, ⟨storedState.nodes.map fun n =>
                if n.node_id ∈ (⟨"f", ["n1"]⟩ : FileRecord).nodes
                then n.delete_file (hash_file [72]) else n,
              derase storedState.file_map (hash_file [72]), storedState.num_replicas⟩) ∧
    dget (storedState.delete_file (hash_file [72])).2.file_map (hash_file [72]) = none ∧
    ∀ n ∈ (storedState.delete_file (hash_file [72])).2.nodes,
      n.node_id ∈ (⟨"f", ["n1"]⟩ : FileRecord).nodes →
        n.get_file (hash_file [72]) = none :=
  delete_file_spec_amended storedState (hash_file [72]) ⟨"f", ["n1"]⟩ (by decide) (by decide)

/-- C8: a step of any operation that creates a directory record for a
previously absent id lists only NodeIDs of nodes registered in the
pre-step state (placement samples from the live registry), and removing a
node afterwards never repairs or purges the directory. -/
theorem replica_record_nodes_registered (s : DistributedFileStorageSystem) (op : Op)
    (fid : String) (r : FileRecord)
    (h1 : dget s.file_map fid = none)
    (h2 : dget (applyOp s op).file_map fid = some r) :
    (∀ nid ∈ r.nodes, ∃ n ∈ s.nodes, n.node_id = nid) ∧
    (∀ nid2, ((applyOp s op).remove_node nid2).file_map = (applyOp s op).file_map) := by
  refine ⟨?_, fun nid2 => rfl⟩
  cases op with
  | addNode n =>
    simp only [applyOp, add_node] at h2
    rw [h1] at h2
    cases h2
  | removeNode nid =>
    simp only [applyOp, remove_node] at h2
    rw [h1] at h2
    cases h2
  | retrieveOp fid2 =>
    simp only [applyOp, retrieve_file_snd] at h2
    rw [h1] at h2
    cases h2
  | deleteOp fid2 =>
    simp only [applyOp] at h2
    cases hd : dget s.file_map fid2 with
    | none =>
      simp only [delete_file, hd] at h2
      rw [h1] at h2
      cases h2
    | some rec0 =>
      simp only [delete_file, hd] at h2
      by_cases hf : fid = fid2
      · subst hf
        rw [dget_derase_self] at h2
        cases h2
      · rw [dget_derase_ne _ _ _ hf] at h2
        rw [h1] at h2
        cases h2
  | storeOp f d sel =>
    simp only [applyOp] at h2
    by_cases hc : dcontains s.file_map (hash_file d) = true
    · simp only [store_file, hc, if_true] at h2
      rw [h1] at h2
      cases h2
    · by_cases hl : s.nodes.length < s.num_replicas
      · simp only [store_file, hc, Bool.false_eq_true, if_false, hl, if_true] at h2
        rw [h1] at h2
        cases h2
      · simp only [store_file, hc, Bool.false_eq_true, if_false, hl] at h2
        by_cases hf : fid = hash_file d
        · subst hf
          rw [dget_dinsert_self] at h2
          injection h2 with h3
          subst h3
          intro nid hnid
          rw [List.mem_filterMap] at hnid
          obtain ⟨i, hi, hmap⟩ := hnid
          cases hg : s.nodes[i]? with
          | none => rw [hg] at hmap; cases hmap
          | some n =>
            rw [hg] at hmap
            simp at hmap
            exact ⟨n, List.getElem?_mem hg, hmap⟩
        · rw [dget_dinsert_ne _ _ _ _ hf] at h2
          rw [h1] at h2
          cases h2

/-- Witness for C8: storing `[72]` on the one-node system creates a record
listing the registered node `n1`, and removals never purge it. -/
theorem replica_record_nodes_registered_witness :
    (∀ nid ∈ (⟨"f", ["n1"]⟩ : FileRecord).nodes,
      ∃ n ∈ ((⟨[], [], 1⟩ : DistributedFileStorageSystem).add_node ⟨"n1", []⟩).nodes,
        n.node_id = nid) ∧
    (∀ nid2,
      ((applyOp ((⟨[], [], 1⟩ : DistributedFileStorageSystem).add_node ⟨"n1", []⟩)
          (.storeOp "f" [72] [0])).remove_node nid2).file_map =
        (applyOp ((⟨[], [], 1⟩ : DistributedFileStorageSystem).add_node ⟨"n1", []⟩)
          (.storeOp "f" [72] [0])).file_map) :=
  replica_record_nodes_registered ((⟨[], [], 1⟩ : DistributedFileStorageSystem).add_node
      ⟨"n1", []⟩) (.storeOp "f" [72] [0]) (hash_file [72]) ⟨"f", ["n1"]⟩ rfl (by decide)
